import Mathlib

/-!
Verification of `numpydoc/discrepancy.py`.

The Python module is shallowly embedded: runtime reflection results
(`__doc__`, `inspect.getsourcelines`, `inspect.getdoc`, `inspect.getargspec`,
and the external `NumpyDocString` section parser) are supplied as data in an
`Obj` structure, and each Python function of the module becomes a Lean
function over that data.  Exceptions are modelled with `Except Err`.
-/

namespace Discrepancy

/-- Python whitespace (ASCII range), as matched by the regex class for
whitespace and by `str.strip` in the source. -/
def isPySpace (c : Char) : Bool :=
  c == ' ' || c == '\t' || c == '\n' || c == '\r' || c == '\x0b' || c == '\x0c'

/-- `str.strip()`: remove leading and trailing whitespace. -/
def pyStrip (l : List Char) : List Char :=
  ((l.dropWhile isPySpace).reverse.dropWhile isPySpace).reverse

/-- Length of the maximal leading whitespace run. -/
def wsRun (l : List Char) : Nat := (l.takeWhile isPySpace).length

/-- The single quote character (used in triple-quote literals). -/
def squote : Char := Char.ofNat 39

/-- Number of characters consumed by the optional string-literal markers
(one of u or U, then one of r or R) in the docstring-locating regex of
`get_docstring_source` (discrepancy.py line 158).  The marker characters are
never quote characters, so the greedy deterministic scan agrees with the
regex engine including backtracking. -/
def urLen (l : List Char) : Nat :=
  match l with
  | c1 :: rest =>
    if c1 == 'u' || c1 == 'U' then
      match rest with
      | c2 :: _ => if c2 == 'r' || c2 == 'R' then 2 else 1
      | [] => 1
    else if c1 == 'r' || c1 == 'R' then 1 else 0
  | [] => 0

/-- Does the list start with three copies of the character `c`? -/
def startsTriple (c : Char) (l : List Char) : Bool :=
  match l with
  | c1 :: c2 :: c3 :: _ => c1 == c && c2 == c && c3 == c
  | _ => false

/-- Attempt to match, at the current position (which must be a line start),
the part `\s+ [uU]? [rR]? (three double quotes | three single quotes)` of the
docstring regex.  Returns the number of characters consumed and the quote
character.  The whitespace run is maximal: backtracking it cannot help since
the following character of any shorter run is whitespace, which matches
neither the markers nor a quote. -/
def openQuote (l : List Char) : Option (Nat × Char) :=
  if wsRun l == 0 then none
  else
    if startsTriple '"' ((l.drop (wsRun l)).drop (urLen (l.drop (wsRun l)))) then
      some (wsRun l + urLen (l.drop (wsRun l)) + 3, '"')
    else if startsTriple squote ((l.drop (wsRun l)).drop (urLen (l.drop (wsRun l)))) then
      some (wsRun l + urLen (l.drop (wsRun l)) + 3, squote)
    else none

/-- Index of the first occurrence of a triple of `c`, if any. -/
def findTriple (c : Char) : List Char → Option Nat
  | [] => none
  | l@(_ :: rest) =>
    if startsTriple c l then some 0
    else (findTriple c rest).map (· + 1)

/-- Length of the maximal trailing whitespace run. -/
def trailingWs (l : List Char) : Nat := wsRun l.reverse

/-- The named groups of the docstring-locating regex (discrepancy.py lines
154-168): `prefix`, `quote`, `content`, `suffix`.  (`prefix` is spelled `pre`
here.) -/
structure MatchGroups where
  pre : List Char
  quote : List Char
  content : List Char
  suffix : List Char
  deriving DecidableEq

/-- `match.groupdict()`: a dict with the four named groups, in group order. -/
def MatchGroups.toDict (g : MatchGroups) : List (String × List Char) :=
  [("prefix", g.pre), ("quote", g.quote), ("content", g.content), ("suffix", g.suffix)]

/-- Given the matched opening quote, determine the length of the `content`
group within `r3` (the text after the opening quote and the following
whitespace run).  The lazy `content` group is one non-whitespace character
followed by the least extension after which `\s*` then the closing triple
match; equivalently, the closing triple is the first triple occurrence at
index at least 1, and the whitespace run immediately before it belongs to the
`suffix` group (but `content` keeps at least one character). -/
def contentLen (qc : Char) (r3 : List Char) : Option Nat :=
  match r3 with
  | [] => none
  | _ :: r4 =>
    match findTriple qc r4 with
    | none => none
    | some k => some (max 1 (k + 1 - trailingWs (r3.take (k + 1))))

/-- Attempt the regex match with the inner line-start anchor at the current
position.  `pre` is the already-scanned text (the regex match always starts
at position 0, so the `prefix` group always begins at the very start of the
source).  Group boundaries are splits of `pre ++ rest`. -/
def tryHere (pre rest : List Char) : Option MatchGroups :=
  match openQuote rest with
  | none => none
  | some (n1, qc) =>
    match contentLen qc (rest.drop (n1 + wsRun (rest.drop n1))) with
    | none => none
    | some e =>
      some ⟨pre ++ rest.take (n1 + wsRun (rest.drop n1)), [qc, qc, qc],
        (rest.drop (n1 + wsRun (rest.drop n1))).take e,
        (rest.drop (n1 + wsRun (rest.drop n1))).drop e⟩

/-- First-success choice on options. -/
def orElseO {α : Type} (a b : Option α) : Option α :=
  match a with
  | some g => some g
  | none => b

theorem orElseO_eq_some {α : Type} {a b : Option α} {g : α}
    (h : orElseO a b = some g) : a = some g ∨ (a = none ∧ b = some g) := by
  cases a with
  | some x => left; simpa [orElseO] using h
  | none => right; exact ⟨rfl, by simpa [orElseO] using h⟩

/-- Scan the source left to right; at every line start, attempt the anchored
part of the regex (the lazy leading part of the `prefix` group absorbs the
scanned text).  This is `re.search` for the docstring pattern of
`get_docstring_source`. -/
def scanAux : List Char → List Char → Bool → Option MatchGroups
  | _, [], false => none
  | pre, [], true => tryHere pre []
  | pre, c :: rs, atStart =>
    orElseO (if atStart then tryHere pre (c :: rs) else none)
      (scanAux (pre ++ [c]) rs (c == '\n'))

/-- The regex search of `get_docstring_source` over the joined source lines. -/
def findDocstring (cs : List Char) : Option MatchGroups := scanAux [] cs true

/-- Exception classes raised by the embedded code. -/
inductive Err where
  | valueError
  | typeError
  | keyError
  | attributeError
  | notImplementedError
  deriving DecidableEq

theorem tryHere_eq_some {pre rest : List Char} {g : MatchGroups}
    (h : tryHere pre rest = some g) :
    g.pre ++ (g.content ++ g.suffix) = pre ++ rest := by
  unfold tryHere at h
  split at h
  · simp at h
  next n1 qc =>
    split at h
    · simp at h
    next e he =>
      injection h with h
      subst h
      simp [List.append_assoc, List.take_append_drop]

theorem scanAux_eq_some :
    ∀ (rest pre : List Char) (atStart : Bool) (g : MatchGroups),
      scanAux pre rest atStart = some g →
      g.pre ++ (g.content ++ g.suffix) = pre ++ rest := by
  intro rest
  induction rest with
  | nil =>
    intro pre atStart g h
    cases atStart with
    | false => simp [scanAux] at h
    | true =>
      simp only [scanAux] at h
      simpa using tryHere_eq_some h
  | cons c rs ih =>
    intro pre atStart g h
    simp only [scanAux] at h
    rcases orElseO_eq_some h with h1 | ⟨-, h2⟩
    · cases atStart with
      | false => simp at h1
      | true => exact tryHere_eq_some (by simpa using h1)
    · have := ih (pre ++ [c]) (c == '\n') g h2
      simpa [List.append_assoc] using this

theorem findDocstring_partition {cs : List Char} {g : MatchGroups}
    (h : findDocstring cs = some g) :
    g.pre ++ (g.content ++ g.suffix) = cs := by
  simpa using scanAux_eq_some cs [] true g h

/-- The result of `inspect.getargspec(func)` (discrepancy.py line 348):
argument names, the variadic-positional name, the variadic-keyword name, and
the defaults tuple (`none`, or `some d` for a tuple of `d` default values;
CPython returns `None` or a non-empty tuple). -/
structure ArgSpec where
  args : List String
  varargs : Option String
  keywords : Option String
  defaults : Option Nat
  deriving DecidableEq

/-- The data the external `NumpyDocString` parser exposes for one section:
`span` is `_line_spans[section]` (start line, length), and `entries` lists,
per entry index, the entry name (from `parsed_docstring[section]`) and its
`_line_spans[section, index]` span.  The parser is an external collaborator
(spec section 6), so its output is supplied as data. -/
structure SectionData where
  span : Nat × Nat
  entries : List (String × Nat × Nat)
  deriving DecidableEq

/-- The reflection data of a Python object used by `discrepancy.py`.

* `doc` — `__doc__` of the `_finddoc_obj`-resolved owner (`none` if null);
* `srcLines`, `fileOffset` — `inspect.getsourcelines(obj)`;
* `getdocLines` — `inspect.getdoc(obj)` split at newlines (`none` when
  `getdoc` returns `None`, in which case `.split` raises);
* `sections` — the external parser's output per section name (a missing
  section key makes `_line_spans[section]` raise `KeyError`);
* `argspec` — `inspect.getargspec` of the object (of `__init__` for a
  class, discrepancy.py lines 341-345);
* `modName`, `objName` — module and object names for report headers. -/
structure Obj where
  modName : String
  objName : String
  doc : Option (List Char)
  srcLines : List (List Char)
  fileOffset : Nat
  getdocLines : Option (List String)
  sections : List (String × SectionData)
  argspec : ArgSpec
  deriving DecidableEq

/-- `get_docstring_source` (discrepancy.py lines 122-174).  Resolution via
`_finddoc_obj` is reflected in the `doc` field; a null docstring raises
`ValueError` (line 144); a failed regex search raises `NotImplementedError`
(line 170); a mismatch between the stripped docstring and the matched
content raises `NotImplementedError` when `check_match` is set (lines
171-173).  NOTE: despite its docstring promising the pair
`(resolved_obj, match_groups)`, line 174 returns only `match.groupdict()`,
a single four-key dict. -/
def get_docstring_source (o : Obj) (check_match : Bool) :
    Except Err (List (String × List Char)) :=
  match o.doc with
  | none => .error .valueError
  | some origDoc =>
    match findDocstring o.srcLines.flatten with
    | none => .error .notImplementedError
    | some g =>
      if check_match = true ∧ pyStrip origDoc ≠ g.content then .error .notImplementedError
      else .ok g.toDict

/-- Python tuple unpacking `a, b = xs`: iterating `xs` must yield exactly two
items, otherwise `ValueError` is raised.  Iterating a dict yields its keys. -/
def pyUnpack2 {α : Type} (l : List α) : Except Err (α × α) :=
  match l with
  | [a, b] => .ok (a, b)
  | _ => .error .valueError

/-- `build_docstring_diff` (discrepancy.py lines 205-231).  Line 206 is
`resolved_obj, match = get_docstring_source(obj)`: it unpacks the returned
four-key group dict into two targets, which raises
`ValueError: too many values to unpack`.  The remainder of the function
(lines 207-231, the diff construction) is therefore dead code; were the
unpacking ever to succeed, `match` would be bound to a string key and line
209 `match['prefix']` would raise `TypeError` (string indices must be
integers), which is what the final branch models. -/
def build_docstring_diff (o : Obj) (_updatedDocstring : String) (_path : Option String) :
    Except Err String :=
  match get_docstring_source o true with
  | .error e => .error e
  | .ok gd =>
    match pyUnpack2 (gd.map Prod.fst) with
    | .error e => .error e
    | .ok _ => .error .typeError

/-- A parsed parameter entry: name, span start line, span length. -/
abbrev Entry := String × Nat × Nat

/-- `get_lines(idx)` in `get_param_diff` (discrepancy.py lines 271-273):
the slice `lines[start:start + length]` for entry `idx`.  Callers only pass
indices produced by `name_to_idx` or `enumerate`, which are in range, so the
out-of-range default is never consulted. -/
def getLinesAt (lines : List String) (entries : List Entry) (i : Nat) : List String :=
  (lines.drop (entries.getD i ("", 0, 0)).2.1).take (entries.getD i ("", 0, 0)).2.2

/-- The `name_to_idx` dict of `get_param_diff` (discrepancy.py lines
283-285): built by inserting `(name, i)` for increasing `i`, so a later
entry with the same name overwrites an earlier one; lookup yields the last
index carrying the name. -/
def name_to_idx : List Entry → String → Option Nat
  | [], _ => none
  | e :: rest, name =>
    match name_to_idx rest name with
    | some i => some (i + 1)
    | none => if e.1 = name then some 0 else none

/-- The positional loop of `get_param_diff` (discrepancy.py lines 288-293):
for each sought name in order, emit the existing entry's lines if the name
is documented, else a bare line holding just the name. -/
def posSegment (lines : List String) (entries : List Entry) (positional : List String) :
    List String :=
  positional.flatMap fun name =>
    match name_to_idx entries name with
    | some i => getLinesAt lines entries i
    | none => [name]

/-- The matched-keywords loop of `get_param_diff` (discrepancy.py lines
296-304): walk the entries with the working keyword set; skip names in
`positional`; emit an entry verbatim and remove its name when it is in the
working set (`keyword.remove` raising `KeyError` means skip). -/
def matchedLoop (lines : List String) (entries : List Entry) (posSet : Finset String) :
    List (Nat × Entry) → Finset String → List String × Finset String
  | [], kw => ([], kw)
  | p :: rest, kw =>
    if p.2.1 ∈ posSet then matchedLoop lines entries posSet rest kw
    else if p.2.1 ∈ kw then
      ((getLinesAt lines entries p.1 ++
          (matchedLoop lines entries posSet rest (kw.erase p.2.1)).1),
        (matchedLoop lines entries posSet rest (kw.erase p.2.1)).2)
    else matchedLoop lines entries posSet rest kw

/-- `param_list_stop = section_start + param_list_length` (line 276). -/
def paramListStop (sd : SectionData) : Nat := sd.span.1 + sd.span.2

/-- `param_list_start` (lines 277-281): the first entry's start line, or the
section's stop when the section has no entries yet (`KeyError` branch). -/
def paramListStart (sd : SectionData) : Nat :=
  match sd.entries.head? with
  | some e => e.2.1
  | none => paramListStop sd

/-- Line 307: `sorted(keyword)` — the keywords left over after the matching
loop, in ascending lexicographic order. -/
def remainingSorted (lines : List String) (sd : SectionData) (positional : List String)
    (kw : Finset String) : List String :=
  ((matchedLoop lines sd.entries positional.toFinset sd.entries.enum kw).2).sort (· ≤ ·)

/-- The `out` line-list construction of `get_param_diff` (discrepancy.py
lines 269-312): lines before the parameter list, the positional segment, the
matched-keyword segment, the leftover keywords sorted, and the lines from
the parameter-list stop onward. -/
def reconcile (lines : List String) (sd : SectionData) (positional : List String)
    (kw : Finset String) : List String :=
  lines.take (paramListStart sd)
    ++ posSegment lines sd.entries positional
    ++ (matchedLoop lines sd.entries positional.toFinset sd.entries.enum kw).1
    ++ remainingSorted lines sd positional kw
    ++ lines.drop (paramListStop sd)

/-- `get_param_diff` (discrepancy.py lines 234-314).  The keyword iterable
is converted to a set first (line 261); an overlap with `positional` raises
`ValueError` (lines 262-265) before any docstring data is read; `getdoc`
returning `None` makes line 269 raise `AttributeError`; a missing section
key raises `KeyError` at line 275; otherwise the reconciled lines are passed
to `build_docstring_diff` (line 314). -/
def get_param_diff (o : Obj) (positional keyword : List String) (sectionName : String)
    (path : Option String) : Except Err String :=
  if (keyword.toFinset ∩ positional.toFinset).Nonempty then .error .valueError
  else
    match o.getdocLines with
    | none => .error .attributeError
    | some lines =>
      match o.sections.lookup sectionName with
      | none => .error .keyError
      | some sd =>
        build_docstring_diff o
          (String.intercalate "\n" (reconcile lines sd positional keyword.toFinset)) path

/-- Python list slice `l[:-n]` (for a `Nat` count `n`): when `n = 0` this is
`l[:0] = []`, otherwise the first `length - n` elements (empty when
`n ≥ length`). -/
def pySliceDropLastN (l : List String) (n : Nat) : List String :=
  if n = 0 then [] else l.take (l.length - n)

/-- Python list slice `l[-n:]`: when `n = 0` this is `l[0:] = l`, otherwise
the last `n` elements (all of `l` when `n ≥ length`). -/
def pySliceTakeLastN (l : List String) (n : Nat) : List String :=
  if n = 0 then l else l.drop (l.length - n)

/-- The request derivation of `diff_parameters` (discrepancy.py lines
341-369): drop a leading `self`; when `all_positional` is unset and defaults
exist, the trailing defaulted arguments become the keyword set and the rest
stay positional; append the variadic-positional name to `positional` and add
the variadic-keyword name to the keyword set; finally remove every name in
`remove` from both. -/
def derive_request (spec : ArgSpec) (all_positional : Bool) (remove : List String) :
    List String × Finset String :=
  ((if spec.args.head? = some "self" then spec.args.tail else spec.args)
      |> fun args =>
    (if all_positional = true then (args, (∅ : Finset String))
     else match spec.defaults with
       | none => (args, (∅ : Finset String))
       | some d => (pySliceDropLastN args d, (pySliceTakeLastN args d).toFinset))
      |> fun pk =>
    ((pk.1 ++ spec.varargs.toList).filter (fun n => !(remove.contains n)),
     (match spec.keywords with
      | none => pk.2
      | some k => insert k pk.2) \ remove.toFinset))

/-- `diff_parameters` (discrepancy.py lines 317-372): derive the request
from the argspec and delegate to `get_param_diff` with the default
`Parameters` section.  (The Python keyword set is unordered; it is passed
here as its sorted enumeration, which `get_param_diff` converts back to the
same set.) -/
def diff_parameters (o : Obj) (all_positional : Bool) (remove : List String)
    (path : Option String) : Except Err String :=
  get_param_diff o (derive_request o.argspec all_positional remove).1
    (((derive_request o.argspec all_positional remove).2).sort (· ≤ ·)) "Parameters" path

/-- A module as enumerated by the batch walker: public classes with their
function members, and public module-level functions
(`inspect.getmembers`, an external collaborator, supplies the listing). -/
structure PyModule where
  classes : List (String × Obj × List (String × Obj))
  functions : List (String × Obj)

/-- `append_diff` of `diff_member_parameters` (discrepancy.py lines
396-408): any exception from a member's diff is swallowed and the member
skipped with no diagnostic; empty diffs are not reported; a non-empty diff
is appended under a `For module.name:` header. -/
def append_diff (all_positional : Bool) (remove : List String) (path : Option String)
    (diffs : List String) (o : Obj) : List String :=
  match diff_parameters o all_positional remove path with
  | .error _ => diffs
  | .ok d =>
    if d = "" then diffs
    else diffs ++ ["For " ++ o.modName ++ "." ++ o.objName ++ ":\n", d]

/-- The members visited by `diff_member_parameters` (discrepancy.py lines
410-423): every public class (plus, per class, members named `__call__` or
not underscore-led), then every public module-level function. -/
def memberObjs (m : PyModule) : List Obj :=
  (m.classes.flatMap fun c =>
    if c.1.startsWith "_" then []
    else c.2.1 :: (c.2.2.filterMap fun f =>
      if f.1 == "__call__" || !(f.1.startsWith "_") then some f.2 else none))
  ++ m.functions.filterMap fun f =>
      if f.1.startsWith "_" then none else some f.2

/-- `diff_member_parameters` (discrepancy.py lines 375-425): fold
`append_diff` over the members and join the collected report pieces. -/
def diff_member_parameters (m : PyModule) (all_positional : Bool) (remove : List String)
    (path : Option String) : String :=
  String.join ((memberObjs m).foldl (append_diff all_positional remove path) [])

/-! ### Sample reflection data

A concrete function

```text
def f(aaa):
    \"\"\"S.

    Parameters
    ----------
    aaa : int
        D.
    \"\"\"
```

with its raw docstring, `getsourcelines` output, cleaned `getdoc` lines and
the section-parser output for its `Parameters` section. -/

/-- The regex groups located in the sample source. -/
def sampleGroups : MatchGroups :=
  ⟨"def f(aaa):\n    \"\"\"".toList, "\"\"\"".toList,
   "S.\n\n    Parameters\n    ----------\n    aaa : int\n        D.".toList,
   "\n    \"\"\"\n".toList⟩

/-- `inspect.getsourcelines` lines of the sample function. -/
def sampleSrcLines : List (List Char) :=
  ["def f(aaa):\n".toList, "    \"\"\"S.\n".toList, "\n".toList, "    Parameters\n".toList,
   "    ----------\n".toList, "    aaa : int\n".toList, "        D.\n".toList,
   "    \"\"\"\n".toList]

/-- `inspect.getdoc` of the sample function, split at newlines. -/
def sampleDocLines : List String :=
  ["S.", "", "Parameters", "----------", "aaa : int", "    D."]

/-- Section-parser output for the sample `Parameters` section: the section
spans lines 2-5, and its single entry `aaa` spans lines 4-5. -/
def sampleSection : SectionData := ⟨(2, 4), [("aaa", 4, 2)]⟩

/-- The sample function's reflection data. -/
def sampleObj : Obj :=
  { modName := "mod", objName := "f",
    doc := some "S.\n\n    Parameters\n    ----------\n    aaa : int\n        D.\n    ".toList,
    srcLines := sampleSrcLines,
    fileOffset := 1,
    getdocLines := some sampleDocLines,
    sections := [("Parameters", sampleSection)],
    argspec := ⟨["aaa"], none, none, none⟩ }

/-- The sample object with a `__doc__` that does not match the located
literal. -/
def sampleObjMismatch : Obj := { sampleObj with doc := some "X".toList }

/-! ### The docstring locator: claims C8, C9 and C1 -/

/-- Claim C8: whenever `get_docstring_source` succeeds in locating a
docstring, the returned `prefix`, `content` and `suffix` fields partition
the object's full reconstructed source text (`''.join(lines)`): their
concatenation is the entire source string.  (The `quote` group is the
opening triple quote, contained in `prefix`.) -/
theorem get_docstring_source_partition (o : Obj) (check : Bool)
    (d : List (String × List Char)) (h : get_docstring_source o check = Except.ok d) :
    ∃ g : MatchGroups, d = g.toDict ∧ g.pre ++ (g.content ++ g.suffix) = o.srcLines.flatten := by
  unfold get_docstring_source at h
  split at h
  · simp at h
  next origDoc =>
    split at h
    · simp at h
    next g hg =>
      split at h
      · simp at h
      · refine ⟨g, ?_, findDocstring_partition hg⟩
        injection h with h
        exact h.symm

/-- Witness for C8 on the sample object. -/
theorem get_docstring_source_partition_witness :
    ∃ g : MatchGroups, sampleGroups.toDict = g.toDict ∧
      g.pre ++ (g.content ++ g.suffix) = sampleObj.srcLines.flatten :=
  get_docstring_source_partition sampleObj true sampleGroups.toDict (by rfl)

/-- Claim C9: given that a triple-quoted literal is located in the source,
`get_docstring_source` with `check_match` enabled raises an error if and
only if the resolved owner's formal docstring, after trimming surrounding
whitespace, differs from the matched content; with `check_match` disabled no
error is raised. -/
theorem get_docstring_source_check_match_iff (o : Obj) (dd : List Char) (g : MatchGroups)
    (hdoc : o.doc = some dd) (hloc : findDocstring o.srcLines.flatten = some g) :
    ((∃ e, get_docstring_source o true = Except.error e) ↔ pyStrip dd ≠ g.content)
    ∧ ∃ d, get_docstring_source o false = Except.ok d := by
  unfold get_docstring_source
  rw [hdoc, hloc]
  constructor
  · by_cases hc : pyStrip dd ≠ g.content
    · simp [hc]
    · simp [hc]
  · exact ⟨g.toDict, by simp⟩

/-- Witness for C9 on the sample object with a mismatched `__doc__`. -/
theorem get_docstring_source_check_match_iff_witness :
    ((∃ e, get_docstring_source sampleObjMismatch true = Except.error e) ↔
       pyStrip "X".toList ≠ sampleGroups.content)
    ∧ ∃ d, get_docstring_source sampleObjMismatch false = Except.ok d :=
  get_docstring_source_check_match_iff sampleObjMismatch "X".toList sampleGroups rfl (by rfl)

/-- Helper: whatever `get_docstring_source` returns on success is the
four-key group dict; iterating it yields the four group names. -/
theorem get_docstring_source_ok_keys {o : Obj} {c : Bool} {d : List (String × List Char)}
    (h : get_docstring_source o c = Except.ok d) :
    d.map Prod.fst = ["prefix", "quote", "content", "suffix"] := by
  unfold get_docstring_source at h
  split at h
  · simp at h
  · split at h
    · simp at h
    · split at h
      · simp at h
      · injection h with h
        rw [← h]
        rfl

/-- Helper: every call of `build_docstring_diff` raises: either
`get_docstring_source` fails, or its four-key dict defeats the two-target
tuple unpacking on line 206. -/
theorem build_docstring_diff_error (o : Obj) (u : String) (p : Option String) :
    ∃ e, build_docstring_diff o u p = Except.error e := by
  cases h : get_docstring_source o true with
  | error e => exact ⟨e, by unfold build_docstring_diff; rw [h]⟩
  | ok gd =>
    refine ⟨Err.valueError, ?_⟩
    unfold build_docstring_diff
    rw [h]
    dsimp only
    rw [get_docstring_source_ok_keys h]
    rfl

/-- Claim C1 (code-bug evidence): on the sample object — whose docstring is
present and located — `build_docstring_diff` does not return a unified diff;
it raises `ValueError` at line 206, which unpacks the single four-key dict
returned by `get_docstring_source` (contradicting that function's own
documented `(resolved_obj, match_groups)` return) into two targets.  The
claimed diff construction on lines 207-231 is unreachable. -/
theorem build_docstring_diff_raises_on_sample :
    build_docstring_diff sampleObj "replacement docstring" (some "a/b.py")
      = Except.error Err.valueError := by
  rfl

/-! ### The reconciler entry point and the batch walker: claims C3, C2, C4 -/

/-- Claim C3: whenever the `positional` sequence and the `keyword`
collection share a name, `get_param_diff` raises `ValueError` — and does so
before inspecting any docstring content: the conclusion holds for every
object `o`, whatever its docstring, parse data or source may be. -/
theorem get_param_diff_overlap_raises (o : Obj) (positional keyword : List String)
    (sectionName : String) (path : Option String) (x : String)
    (hk : x ∈ keyword) (hp : x ∈ positional) :
    get_param_diff o positional keyword sectionName path = Except.error Err.valueError := by
  unfold get_param_diff
  exact if_pos ⟨x, Finset.mem_inter.mpr ⟨List.mem_toFinset.mpr hk, List.mem_toFinset.mpr hp⟩⟩

/-- Witness for C3: a request naming `aaa` both positionally and as a
keyword. -/
theorem get_param_diff_overlap_raises_witness :
    get_param_diff sampleObj ["aaa"] ["aaa"] "Parameters" none = Except.error Err.valueError :=
  get_param_diff_overlap_raises sampleObj ["aaa"] ["aaa"] "Parameters" none "aaa"
    (by simp) (by simp)

/-- Helper: every call of `get_param_diff` raises: the overlap check, the
missing docstring, the missing section key, or — on the main path — the
tuple-unpacking failure inside `build_docstring_diff`. -/
theorem get_param_diff_error (o : Obj) (positional keyword : List String)
    (sectionName : String) (path : Option String) :
    ∃ e, get_param_diff o positional keyword sectionName path = Except.error e := by
  unfold get_param_diff
  by_cases hover : (keyword.toFinset ∩ positional.toFinset).Nonempty
  · exact ⟨Err.valueError, if_pos hover⟩
  · rw [if_neg hover]
    cases hdl : o.getdocLines with
    | none => exact ⟨Err.attributeError, rfl⟩
    | some lines =>
      cases hlk : o.sections.lookup sectionName with
      | none => exact ⟨Err.keyError, rfl⟩
      | some sd =>
        exact build_docstring_diff_error o
          (String.intercalate "\n" (reconcile lines sd positional keyword.toFinset)) path

/-- Helper: every call of `diff_parameters` raises. -/
theorem diff_parameters_error (o : Obj) (ap : Bool) (remove : List String)
    (path : Option String) :
    ∃ e, diff_parameters o ap remove path = Except.error e :=
  get_param_diff_error o _ _ "Parameters" path

/-- Claim C2: for every module argument, `diff_member_parameters` returns
the empty string.  Each member's diff computation raises before producing a
diff — `get_docstring_source` returns a single four-key mapping which
`build_docstring_diff` unpacks into two variables — and the batch walker
catches every per-member exception, skips the member without diagnostic,
and never propagates it, so no report piece is ever collected. -/
theorem diff_member_parameters_always_empty :
    (∀ (o : Obj) (ap : Bool) (remove : List String) (path : Option String),
        ∃ e, diff_parameters o ap remove path = Except.error e)
    ∧ ∀ (m : PyModule) (ap : Bool) (remove : List String) (path : Option String),
        diff_member_parameters m ap remove path = "" := by
  refine ⟨diff_parameters_error, ?_⟩
  intro m ap remove path
  have happ : ∀ (acc : List String) (o : Obj), append_diff ap remove path acc o = acc := by
    intro acc o
    obtain ⟨e, he⟩ := diff_parameters_error o ap remove path
    unfold append_diff
    rw [he]
  have hfold : ∀ (l : List Obj) (acc : List String),
      l.foldl (append_diff ap remove path) acc = acc := by
    intro l
    induction l with
    | nil => intro acc; rfl
    | cons o rest ih => intro acc; rw [List.foldl_cons, happ]; exact ih acc
  unfold diff_member_parameters
  rw [hfold]
  rfl

/-- Claim C4 (code-bug evidence): requesting exactly the documented
parameter set is a no-op for the reconciler — the reconciled line sequence
equals the original docstring lines — but `get_param_diff` does not return
the empty string: it raises `ValueError` through the tuple-unpacking bug in
`build_docstring_diff` (line 206), the same call that would render the
diff.  (The repository's own `test_get_diff_empty` expects `''` here.) -/
theorem get_param_diff_noop_raises :
    reconcile sampleDocLines sampleSection ["aaa"] ∅ = sampleDocLines
    ∧ get_param_diff sampleObj ["aaa"] [] "Parameters" none = Except.error Err.valueError := by
  constructor
  · have hml : (matchedLoop sampleDocLines sampleSection.entries (["aaa"].toFinset)
        sampleSection.entries.enum ∅).2 = ∅ := by rfl
    unfold reconcile remainingSorted
    rw [hml, Finset.sort_empty]
    rfl
  · rfl

/-! ### The reconciliation loops: claims C5, C6, C7 -/

/-- Helper: congruence for `flatMap` over the members of a list. -/
theorem bindCongrMem {α β : Type} {l : List α} {f g : α → List β}
    (h : ∀ a ∈ l, f a = g a) : l.flatMap f = l.flatMap g := by
  induction l with
  | nil => rfl
  | cons a t ih =>
    simp only [List.flatMap_cons]
    rw [h a (List.mem_cons_self a t), ih fun b hb => h b (List.mem_cons_of_mem a hb)]

/-- Helper: the final working keyword set of the matching loop keeps exactly
the keywords matched by no walked entry outside the positional set. -/
theorem matchedLoop_snd (lines : List String) (entries : List Entry) (posSet : Finset String) :
    ∀ (l : List (Nat × Entry)) (kw : Finset String) (x : String),
      x ∈ (matchedLoop lines entries posSet l kw).2 ↔
        x ∈ kw ∧ ∀ p ∈ l, p.2.1 = x → p.2.1 ∈ posSet := by
  intro l
  induction l with
  | nil => intro kw x; simp [matchedLoop]
  | cons p rest ih =>
    intro kw x
    simp only [matchedLoop]
    by_cases h1 : p.2.1 ∈ posSet
    · rw [if_pos h1, ih]
      simp [List.forall_mem_cons, h1]
    · rw [if_neg h1]
      by_cases h2 : p.2.1 ∈ kw
      · rw [if_pos h2]
        dsimp only
        rw [ih]
        constructor
        · rintro ⟨hxe, hrest⟩
          obtain ⟨hne, hx⟩ := Finset.mem_erase.mp hxe
          refine ⟨hx, ?_⟩
          intro q hq hqx
          rcases List.mem_cons.mp hq with rfl | hq'
          · exact absurd hqx.symm hne
          · exact hrest q hq' hqx
        · rintro ⟨hx, hall⟩
          refine ⟨Finset.mem_erase.mpr ⟨?_, hx⟩, ?_⟩
          · intro heq
            exact h1 (hall p (List.mem_cons_self p rest) heq.symm)
          · intro q hq hqx
            exact hall q (List.mem_cons_of_mem p hq) hqx
      · rw [if_neg h2, ih]
        constructor
        · rintro ⟨hx, hrest⟩
          refine ⟨hx, ?_⟩
          intro q hq hqx
          rcases List.mem_cons.mp hq with rfl | hq'
          · exact absurd (show q.2.1 ∈ kw from hqx.symm ▸ hx) h2
          · exact hrest q hq' hqx
        · rintro ⟨hx, hall⟩
          exact ⟨hx, fun q hq hqx => hall q (List.mem_cons_of_mem p hq) hqx⟩

/-- Helper: a property of the payloads of an enumerated list is a property
of the list's elements. -/
theorem enumFrom_forall_snd {α : Type} (P : α → Prop) :
    ∀ (n : Nat) (l : List α), (∀ p ∈ List.enumFrom n l, P p.2) ↔ ∀ a ∈ l, P a := by
  intro n l
  induction l generalizing n with
  | nil => simp
  | cons a t ih =>
    constructor
    · intro h b hb
      rcases List.mem_cons.mp hb with rfl | hb'
      · exact h (n, b) (by simp [List.enumFrom])
      · exact (ih (n + 1)).mp (fun p hp => h p (by simp [List.enumFrom, hp])) b hb'
    · intro h p hp
      have hp' : p = (n, a) ∨ p ∈ List.enumFrom (n + 1) t := by
        simpa [List.enumFrom] using hp
      rcases hp' with rfl | hp''
      · exact h a (List.mem_cons_self a t)
      · exact (ih (n + 1)).mpr (fun b hb => h b (List.mem_cons_of_mem a hb)) p hp''

/-- Helper: mapping a payload function over an enumerated list forgets the
indices. -/
theorem enumFrom_map_snd {α β : Type} (f : α → β) :
    ∀ (n : Nat) (l : List α), (List.enumFrom n l).map (fun p => f p.2) = l.map f := by
  intro n l
  induction l generalizing n with
  | nil => simp
  | cons a t ih => simp [List.enumFrom, ih]

/-- Helper: `matchedLoop_snd` specialised to the enumerated entry list, as
used by `get_param_diff`. -/
theorem matchedLoop_snd_enum (lines : List String) (entries : List Entry)
    (posSet : Finset String) (kw : Finset String) (x : String) :
    x ∈ (matchedLoop lines entries posSet entries.enum kw).2 ↔
      x ∈ kw ∧ ∀ e ∈ entries, e.1 = x → e.1 ∈ posSet := by
  rw [matchedLoop_snd]
  exact and_congr Iff.rfl
    (enumFrom_forall_snd (fun e : Entry => e.1 = x → e.1 ∈ posSet) 0 entries)

/-- Claim C5: the keyword request is consumed as a set — any two keyword
lists with the same membership give identical `get_param_diff` results — and
the keywords remaining after the matching loop are emitted, between the
matched segment and the docstring tail, as the sorted list of their names
(bare placeholder lines in ascending lexicographic order). -/
theorem get_param_diff_keyword_order_irrelevant :
    (∀ (o : Obj) (positional kw1 kw2 : List String) (sectionName : String)
        (path : Option String),
      (∀ x, x ∈ kw1 ↔ x ∈ kw2) →
      get_param_diff o positional kw1 sectionName path
        = get_param_diff o positional kw2 sectionName path)
    ∧ ∀ (lines : List String) (sd : SectionData) (positional : List String)
        (kw : Finset String),
        (remainingSorted lines sd positional kw).Sorted (· ≤ ·)
        ∧ (∀ x, x ∈ remainingSorted lines sd positional kw ↔
            x ∈ kw ∧ ∀ e ∈ sd.entries, e.1 = x → e.1 ∈ positional.toFinset)
        ∧ reconcile lines sd positional kw
            = lines.take (paramListStart sd)
              ++ posSegment lines sd.entries positional
              ++ (matchedLoop lines sd.entries positional.toFinset sd.entries.enum kw).1
              ++ remainingSorted lines sd positional kw
              ++ lines.drop (paramListStop sd) := by
  constructor
  · intro o positional kw1 kw2 sectionName path h
    have he : kw1.toFinset = kw2.toFinset := by
      ext x
      simpa using h x
    unfold get_param_diff
    rw [he]
  · intro lines sd positional kw
    refine ⟨Finset.sort_sorted _ _, ?_, rfl⟩
    intro x
    unfold remainingSorted
    rw [Finset.mem_sort]
    exact matchedLoop_snd_enum lines sd.entries positional.toFinset kw x

/-- Witness for C5: two orderings of the same keyword request give the same
result. -/
theorem get_param_diff_keyword_order_irrelevant_witness :
    get_param_diff sampleObj [] ["bbb", "aaa"] "Parameters" none
      = get_param_diff sampleObj [] ["aaa", "bbb"] "Parameters" none :=
  get_param_diff_keyword_order_irrelevant.1 sampleObj [] ["bbb", "aaa"] ["aaa", "bbb"]
    "Parameters" none (by intro x; simp; tauto)

/-- Helper: a successful `name_to_idx` lookup means the name is documented. -/
theorem name_to_idx_mem :
    ∀ {entries : List Entry} {name : String} {i : Nat},
      name_to_idx entries name = some i → name ∈ entries.map Prod.fst := by
  intro entries
  induction entries with
  | nil => intro name i h; simp [name_to_idx] at h
  | cons e rest ih =>
    intro name i h
    simp only [name_to_idx] at h
    split at h
    next j hj =>
      simp only [List.map_cons, List.mem_cons]
      exact Or.inr (ih hj)
    next hj =>
      split at h
      next heq =>
        subst heq
        simp
      next => simp at h

/-- Helper: `name_to_idx` fails exactly on undocumented names. -/
theorem name_to_idx_none_iff :
    ∀ {entries : List Entry} {name : String},
      name_to_idx entries name = none ↔ ∀ e ∈ entries, e.1 ≠ name := by
  intro entries
  induction entries with
  | nil => intro name; simp [name_to_idx]
  | cons e rest ih =>
    intro name
    simp only [name_to_idx]
    split
    next j hj =>
      constructor
      · intro h; simp at h
      · intro hall
        exfalso
        obtain ⟨e', he', heq⟩ := List.mem_map.mp (name_to_idx_mem hj)
        exact hall e' (List.mem_cons_of_mem e he') heq
    next hj =>
      by_cases heq : e.1 = name
      · rw [if_pos heq]
        constructor
        · intro h; simp at h
        · intro hall; exact absurd heq (hall e (List.mem_cons_self e rest))
      · rw [if_neg heq]
        constructor
        · intro _ e' he'
          rcases List.mem_cons.mp he' with rfl | he''
          · exact heq
          · exact ih.mp hj e' he''
        · intro _; rfl

/-- Helper: under unique entry names, the dict-based lookup of the code
(last index wins) agrees with a direct first-match search. -/
theorem find?_of_name_to_idx :
    ∀ {entries : List Entry} {name : String} {i : Nat},
      (entries.map Prod.fst).Nodup → name_to_idx entries name = some i →
      entries.find? (fun e => e.1 == name) = some (entries.getD i ("", 0, 0)) := by
  intro entries
  induction entries with
  | nil => intro name i _ h; simp [name_to_idx] at h
  | cons e rest ih =>
    intro name i hnd h
    rw [List.map_cons, List.nodup_cons] at hnd
    obtain ⟨hnd1, hnd2⟩ := hnd
    simp only [name_to_idx] at h
    split at h
    next j hj =>
      injection h with h
      have hne : e.1 ≠ name := fun hEq => hnd1 (by rw [hEq]; exact name_to_idx_mem hj)
      rw [List.find?_cons_of_neg _ (by simp [hne])]
      rw [← h]
      simpa [List.getD_cons_succ] using ih hnd2 hj
    next hj =>
      split at h
      next heq =>
        injection h with h
        rw [← h, List.find?_cons_of_pos _ (by simp [heq])]
        simp
      next => simp at h

/-- Claim C6: in the reconciled line sequence, right after the lines
preceding the parameter list, the positional names are emitted in request
order: a name matching an existing documented entry contributes that entry's
original span of docstring lines verbatim, and any other name contributes a
bare placeholder line holding only the name.  (Entry names are assumed
unique, as produced by the section parser.) -/
theorem reconcile_positional_emission (lines : List String) (sd : SectionData)
    (positional : List String) (kw : Finset String)
    (hnd : (sd.entries.map Prod.fst).Nodup) :
    ∃ rest, reconcile lines sd positional kw
      = lines.take (paramListStart sd)
        ++ ((positional.flatMap fun name =>
              match sd.entries.find? (fun e => e.1 == name) with
              | some e => (lines.drop e.2.1).take e.2.2
              | none => [name])
        ++ rest) := by
  refine ⟨(matchedLoop lines sd.entries positional.toFinset sd.entries.enum kw).1
      ++ (remainingSorted lines sd positional kw ++ lines.drop (paramListStop sd)), ?_⟩
  have hseg : posSegment lines sd.entries positional
      = positional.flatMap fun name =>
          match sd.entries.find? (fun e => e.1 == name) with
          | some e => (lines.drop e.2.1).take e.2.2
          | none => [name] := by
    unfold posSegment
    refine bindCongrMem ?_
    intro name _
    cases hidx : name_to_idx sd.entries name with
    | some i =>
      rw [find?_of_name_to_idx hnd hidx]
      rfl
    | none =>
      rw [List.find?_eq_none.mpr ?_]
      intro e he
      simp [name_to_idx_none_iff.mp hidx e he]
  unfold reconcile
  rw [hseg]
  simp [List.append_assoc]

/-- Witness for C6 on the sample docstring: requesting an undocumented
`bbb` before the documented `aaa`. -/
theorem reconcile_positional_emission_witness :
    ∃ rest, reconcile sampleDocLines sampleSection ["bbb", "aaa"] ∅
      = sampleDocLines.take (paramListStart sampleSection)
        ++ ((["bbb", "aaa"].flatMap fun name =>
              match sampleSection.entries.find? (fun e => e.1 == name) with
              | some e => (sampleDocLines.drop e.2.1).take e.2.2
              | none => [name])
        ++ rest) :=
  reconcile_positional_emission sampleDocLines sampleSection ["bbb", "aaa"] ∅ (by decide)

/-- Helper: under unique entry names, the stateful matching loop equals a
stateless per-entry filter: removal from the working set never affects a
later (distinct) name. -/
theorem matchedLoop_fst_nodup (lines : List String) (entries : List Entry)
    (posSet : Finset String) :
    ∀ (l : List (Nat × Entry)) (kw : Finset String),
      (l.map fun p => p.2.1).Nodup →
      (matchedLoop lines entries posSet l kw).1
        = l.flatMap fun p =>
            if p.2.1 ∉ posSet ∧ p.2.1 ∈ kw then getLinesAt lines entries p.1 else [] := by
  intro l
  induction l with
  | nil => intro kw _; rfl
  | cons p rest ih =>
    intro kw hnd
    rw [List.map_cons, List.nodup_cons] at hnd
    obtain ⟨hp, hnd'⟩ := hnd
    simp only [matchedLoop, List.flatMap_cons]
    by_cases h1 : p.2.1 ∈ posSet
    · rw [if_pos h1, ih kw hnd']
      simp [h1]
    · rw [if_neg h1]
      by_cases h2 : p.2.1 ∈ kw
      · rw [if_pos h2]
        dsimp only
        have hrw : ∀ q ∈ rest,
            (if q.2.1 ∉ posSet ∧ q.2.1 ∈ kw.erase p.2.1
             then getLinesAt lines entries q.1 else [])
              = (if q.2.1 ∉ posSet ∧ q.2.1 ∈ kw
                 then getLinesAt lines entries q.1 else []) := by
          intro q hq
          have hne : q.2.1 ≠ p.2.1 := by
            intro hEq
            exact hp (by rw [← hEq]; exact List.mem_map_of_mem _ hq)
          simp [Finset.mem_erase, hne]
        rw [ih (kw.erase p.2.1) hnd', bindCongrMem hrw]
        simp [h1, h2]
      · rw [if_neg h2, ih kw hnd']
        simp [h1, h2]

/-- Claim C7: after the positional names, each existing documented entry
whose name is outside `positional` is processed in its original relative
order — emitted verbatim exactly when its name is in the keyword set (its
name then leaves the working set), silently dropped otherwise — and this
matched segment sits between the positional segment and the remaining
sorted keywords in the reconciled sequence.  (Entry names are assumed
unique, as produced by the section parser.) -/
theorem reconcile_keyword_matching (lines : List String) (sd : SectionData)
    (positional : List String) (kw : Finset String)
    (hnd : (sd.entries.map Prod.fst).Nodup) :
    ((matchedLoop lines sd.entries positional.toFinset sd.entries.enum kw).1
        = sd.entries.enum.flatMap fun p =>
            if p.2.1 ∉ positional.toFinset ∧ p.2.1 ∈ kw
            then getLinesAt lines sd.entries p.1 else [])
    ∧ (∀ x, x ∈ (matchedLoop lines sd.entries positional.toFinset sd.entries.enum kw).2
          ↔ x ∈ kw ∧ ∀ e ∈ sd.entries, e.1 = x → e.1 ∈ positional.toFinset)
    ∧ ∃ pre post, reconcile lines sd positional kw
        = pre ++ ((matchedLoop lines sd.entries positional.toFinset sd.entries.enum kw).1
            ++ post) := by
  refine ⟨?_, fun x => matchedLoop_snd_enum lines sd.entries positional.toFinset kw x,
    ⟨lines.take (paramListStart sd) ++ posSegment lines sd.entries positional,
     remainingSorted lines sd positional kw ++ lines.drop (paramListStop sd), ?_⟩⟩
  · apply matchedLoop_fst_nodup
    have hmap : (sd.entries.enum.map fun p => p.2.1) = sd.entries.map Prod.fst := by
      have := enumFrom_map_snd (fun e : Entry => e.1) 0 sd.entries
      simpa [List.enum] using this
    rw [hmap]
    exact hnd
  · unfold reconcile
    simp [List.append_assoc]

/-- Witness for C7 on the sample docstring: the documented `aaa` requested
as a keyword. -/
theorem reconcile_keyword_matching_witness :
    ((matchedLoop sampleDocLines sampleSection.entries (List.toFinset [])
          sampleSection.entries.enum {"aaa"}).1
        = sampleSection.entries.enum.flatMap fun p =>
            if p.2.1 ∉ List.toFinset [] ∧ p.2.1 ∈ ({"aaa"} : Finset String)
            then getLinesAt sampleDocLines sampleSection.entries p.1 else [])
    ∧ (∀ x, x ∈ (matchedLoop sampleDocLines sampleSection.entries (List.toFinset [])
            sampleSection.entries.enum {"aaa"}).2
          ↔ x ∈ ({"aaa"} : Finset String)
            ∧ ∀ e ∈ sampleSection.entries, e.1 = x → e.1 ∈ List.toFinset [])
    ∧ ∃ pre post, reconcile sampleDocLines sampleSection [] {"aaa"}
        = pre ++ ((matchedLoop sampleDocLines sampleSection.entries (List.toFinset [])
            sampleSection.entries.enum {"aaa"}).1 ++ post) :=
  reconcile_keyword_matching sampleDocLines sampleSection [] {"aaa"} (by decide)

/-! ### The request derivation of diff_parameters: claim C10 -/

/-- Claim C10: `diff_parameters` derives its reconciliation request via
`derive_request` exactly as specified: the leading `self` is dropped; with
`all_positional` unset and `d > 0` defaulted parameters, the leading
arguments stay positional and the trailing `d` defaulted ones form the
unordered keyword set; a variadic-positional name is appended to the
positional list and a variadic-keyword name joins the keyword set; and
every name in `remove` is excluded from both, with no diagnostic. -/
theorem derive_request_spec (rest : List String) (varargs varkw : Option String)
    (d : Nat) (remove : List String) (hd : 0 < d) :
    derive_request ⟨"self" :: rest, varargs, varkw, some d⟩ false remove
      = ((rest.take (rest.length - d) ++ varargs.toList).filter
            (fun n => !(remove.contains n)),
         ((rest.drop (rest.length - d)).toFinset
            ∪ (match varkw with | none => (∅ : Finset String) | some k => {k}))
           \ remove.toFinset)
    ∧ ∀ x ∈ remove,
        x ∉ (derive_request ⟨"self" :: rest, varargs, varkw, some d⟩ false remove).1
        ∧ x ∉ (derive_request ⟨"self" :: rest, varargs, varkw, some d⟩ false remove).2 := by
  have hd0 : d ≠ 0 := hd.ne'
  have heq : derive_request ⟨"self" :: rest, varargs, varkw, some d⟩ false remove
      = ((rest.take (rest.length - d) ++ varargs.toList).filter
            (fun n => !(remove.contains n)),
         ((rest.drop (rest.length - d)).toFinset
            ∪ (match varkw with | none => (∅ : Finset String) | some k => {k}))
           \ remove.toFinset) := by
    cases varkw with
    | none =>
      simp [derive_request, pySliceDropLastN, pySliceTakeLastN, hd0]
    | some k =>
      simp [derive_request, pySliceDropLastN, pySliceTakeLastN, hd0, Finset.insert_eq,
        Finset.union_comm]
  refine ⟨heq, ?_⟩
  intro x hx
  rw [heq]
  constructor
  · intro hmem
    have h2 := (List.mem_filter.mp hmem).2
    simp at h2
    exact h2 hx
  · intro hmem
    exact (Finset.mem_sdiff.mp hmem).2 (List.mem_toFinset.mpr hx)

/-- Witness for C10 on a concrete signature
`def f(self, x, y, z=1, w=2, *args, **kwargs)` with `y` removed. -/
theorem derive_request_spec_witness :
    derive_request ⟨["self", "x", "y", "z", "w"], some "args", some "kwargs", some 2⟩
        false ["y"]
      = (["x", "args"], {"z", "w", "kwargs"}) := by
  have h := (derive_request_spec ["x", "y", "z", "w"] (some "args") (some "kwargs") 2 ["y"]
    (by decide)).1
  rw [h]
  decide

end Discrepancy
